import Mathlib

/-!
# Verification of the qunfold likelihood-based quantification methods

A shallow embedding of `qunfold/methods/likelihood.py`: the standalone
expectation-maximization routine `maximize_expectation`, the regularized
negative log-likelihood loss of the `LikelihoodMaximizer`, and the two
estimators' `fit` methods.

Modelling choices:

* JAX arrays become functions out of `Fin`: a vector of length `n` is
  `Fin n → ℚ` and a matrix of shape `(m, n)` is `Fin m → Fin n → ℚ`;
  a batch of bags of shape `(B, m, n)` is `Fin B → Fin m → Fin n → ℚ`.
  Machine floats are modelled by exact rationals.
* The loop variable `p_prev` mirrors the source's array shapes: it starts
  as the 1-dimensional `p_trn` of line 93 and, after any iteration, is a
  `keepdims=True` mean of shape `(1, n)` (`(B, 1, n)` in batch mode).
  Broadcasting makes both forms act as their data vector in the
  arithmetic, but `jnp.squeeze(·, axis=-2)` at the return sites succeeds
  only on the `keepdims` form: on the 1-dimensional form — reached
  exactly when `max_iter = 0` — the axis is out of bounds and jax
  raises. The routine's value type is therefore an `Except`, with the
  squeeze the only error source.
* The check `jnp.linalg.norm(d) < tol` is embedded without square roots:
  for `s = Σ dᵢ² ≥ 0`, `Real.sqrt s < t ↔ 0 < t ∧ s < t²`, so the
  comparison is stated in that equivalent root-free form.
* The elementwise `jnp.log` of the loss is an uninterpreted parameter
  `log : ℚ → ℚ`; every property proved here holds for any interpretation
  of it, as in the source the regularizers do not touch the log term.
* Python's `for n_iter in range(max_iter)` loop with two early-return
  sites becomes structural recursion on the remaining number of
  iterations (`fuel`), with the current `n_iter` carried alongside.
-/

/-- A vector of `n` rationals, the embedding of a JAX array of shape `(n,)`. -/
abbrev Vec (n : ℕ) := Fin n → ℚ

/-- A matrix of shape `(m, n)`: `m` items (rows), `n` classes (columns). -/
abbrev Mat (m n : ℕ) := Fin m → Fin n → ℚ

/-- A batch of `B` bags, each a matrix of shape `(m, n)`. -/
abbrev Bags (B m n : ℕ) := Fin B → Fin m → Fin n → ℚ

/-- The `Result` wrapper produced by the routine: an estimate bundled with
the number of iterations consumed and a status message. -/
structure Result (α : Type) where
  p : α
  n_iter : ℕ
  message : String
deriving DecidableEq

/-- The normal return value of `maximize_expectation`: either the bare
estimate (`omit_result_conversion=True`) or a `Result` wrapper. -/
inductive EMOutput (α : Type) where
  | bare : α → EMOutput α
  | result : Result α → EMOutput α
deriving DecidableEq

/-- The numeric estimate carried by either form of the output. -/
def EMOutput.payload {α : Type} : EMOutput α → α
  | .bare p => p
  | .result r => r.p

/-- Mapping a function over the estimate inside either form of output. -/
def EMOutput.map {α β : Type} (f : α → β) : EMOutput α → EMOutput β
  | .bare p => .bare (f p)
  | .result r => .result ⟨f r.p, r.n_iter, r.message⟩

/-- Root-free embedding of `jnp.linalg.norm(d, axis=-1) < tol` for one
vector `d`: `sqrt (Σ dⱼ²) < t ↔ 0 < t ∧ Σ dⱼ² < t²`. -/
def l2_lt {n : ℕ} (d : Vec n) (t : ℚ) : Bool :=
  decide (0 < t ∧ (∑ j, d j ^ 2) < t ^ 2)

/-- The convergence test of lines 98-99 for a single bag: skipped entirely
(`false`) when `tol is None`, otherwise the L2 distance between `p_next`
and `p_prev` must be below `tol`. -/
def conv_check {n : ℕ} (tol : Option ℚ) (p_next p_prev : Vec n) : Bool :=
  match tol with
  | none => false
  | some t => l2_lt (fun j => p_next j - p_prev j) t

/-- One iteration of the EM loop body (lines 95-97) on a single bag, given
`A = pYX / p_trn` (precomputed once, line 92): reweight each row by
`p_prev`, renormalize each row to sum to 1, and take the mean over the
`m` items. -/
def em_step {m n : ℕ} (A : Mat m n) (p_prev : Vec n) : Vec n :=
  fun j => (∑ i, A i j * p_prev j / (∑ k, A i k * p_prev k)) / (m : ℚ)

/-- The shape of the loop variable `p_prev` in single-bag mode: `init` is
the still-1-dimensional `p_trn` of line 93 (shape `(n,)`), `kept` is a
mean computed with `keepdims=True` (shape `(1, n)`). Broadcasting makes
both act as their data vector in the arithmetic; only `jnp.squeeze`
distinguishes them. -/
inductive EMState (n : ℕ) where
  | init : Vec n → EMState n
  | kept : Vec n → EMState n

/-- The data vector carried by either shape of the loop variable. -/
def EMState.data {n : ℕ} : EMState n → Vec n
  | .init p => p
  | .kept p => p

/-- Embedding of `jnp.squeeze(x, axis=-2)` at the return sites (lines
101, 103, 109, 111): it removes the kept axis of size 1, and on the
1-dimensional initial array axis `-2` is out of bounds, so jax raises. -/
def squeeze_axis_minus2 {n : ℕ} : EMState n → Except String (Vec n)
  | .init _ => .error ("axis -2 is out of bounds for array of dimension 1")
  | .kept p => .ok p

/-- The `for n_iter in range(max_iter)` loop of `maximize_expectation`
(lines 94-114) on a single bag, recursing on the remaining iteration
budget `fuel` and carrying the current `n_iter`. Exhaustion squeezes and
returns the last `p_prev` with `max_iter` iterations and the
max-iterations message — raising when `p_prev` is still the
1-dimensional `p_trn`; convergence squeezes and returns `p_next` (always
a `keepdims` mean) with `n_iter + 1` iterations and the success message.
Both return sites squeeze in either output mode, so the error does not
depend on the `omit` flag. -/
def em_loop {m n : ℕ} (A : Mat m n) (tol : Option ℚ) (omitRes : Bool)
    (max_iter : ℕ) : ℕ → ℕ → EMState n → Except String (EMOutput (Vec n))
  | 0, _, p_prev =>
    match squeeze_axis_minus2 p_prev with
    | .error e => .error e
    | .ok v =>
      if omitRes then .ok (.bare v)
      else .ok (.result ⟨v, max_iter, "Maximum number of iterations reached."⟩)
  | fuel + 1, n_iter, p_prev =>
    let p_next := EMState.kept (em_step A p_prev.data)
    if conv_check tol p_next.data p_prev.data then
      match squeeze_axis_minus2 p_next with
      | .error e => .error e
      | .ok v =>
        if omitRes then .ok (.bare v)
        else .ok (.result ⟨v, n_iter + 1, "Optimization terminated successfully."⟩)
    else
      em_loop A tol omitRes max_iter fuel (n_iter + 1) p_next

/-- The EM routine of Saerens et al. (2002), single-bag form
(`pYX : (n_items, n_classes)`): precompute `pYX / p_trn`, start from the
1-dimensional `p_prev = p_trn`, and run the loop for at most `max_iter`
iterations. -/
def maximize_expectation {m n : ℕ} (pYX : Mat m n) (p_trn : Vec n)
    (max_iter : ℕ) (tol : Option ℚ) (omit_result_conversion : Bool) :
    Except String (EMOutput (Vec n)) :=
  em_loop (fun i j => pYX i j / p_trn j) tol omit_result_conversion
    max_iter max_iter 0 (.init p_trn)

/-- Per-bag EM step: the batched arithmetic of lines 95-97 has no
cross-bag dependency, so it is the single-bag step applied bagwise. -/
def em_step_bags {B m n : ℕ} (A : Fin B → Mat m n)
    (p_prev : Fin B → Vec n) : Fin B → Vec n :=
  fun b => em_step (A b) (p_prev b)

/-- Batched convergence test: `jnp.all` of the per-bag L2 comparisons. -/
def conv_check_bags {B n : ℕ} (tol : Option ℚ)
    (p_next p_prev : Fin B → Vec n) : Bool :=
  match tol with
  | none => false
  | some t => decide (∀ b, 0 < t ∧ (∑ j, (p_next b j - p_prev b j) ^ 2) < t ^ 2)

/-- The loop variable's shape in batch mode: the initial `p_trn` is still
a single 1-dimensional vector broadcast against all bags, a kept mean has
shape `(B, 1, n)` with one vector per bag. -/
inductive EMStateBags (B n : ℕ) where
  | init : Vec n → EMStateBags B n
  | kept : (Fin B → Vec n) → EMStateBags B n

/-- The per-bag data vectors carried by either shape (the initial vector
broadcasts to every bag). -/
def EMStateBags.data {B n : ℕ} : EMStateBags B n → Fin B → Vec n
  | .init p => fun _ => p
  | .kept P => P

/-- Embedding of `jnp.squeeze(x, axis=-2)` in batch mode: `(B, 1, n)`
squeezes to `(B, n)`; the 1-dimensional initial `p_trn` again raises. -/
def squeeze_axis_minus2_bags {B n : ℕ} :
    EMStateBags B n → Except String (Fin B → Vec n)
  | .init _ => .error ("axis -2 is out of bounds for array of dimension 1")
  | .kept P => .ok P

/-- The loop of `maximize_expectation` in batch mode, with one estimate
per bag updated in lockstep; the return sites squeeze exactly as in the
single-bag loop. -/
def em_loop_bags {B m n : ℕ} (A : Fin B → Mat m n) (tol : Option ℚ)
    (omitRes : Bool) (max_iter : ℕ) :
    ℕ → ℕ → EMStateBags B n → Except String (EMOutput (Fin B → Vec n))
  | 0, _, p_prev =>
    match squeeze_axis_minus2_bags p_prev with
    | .error e => .error e
    | .ok v =>
      if omitRes then .ok (.bare v)
      else .ok (.result ⟨v, max_iter, "Maximum number of iterations reached."⟩)
  | fuel + 1, n_iter, p_prev =>
    let p_next := EMStateBags.kept (em_step_bags A p_prev.data)
    if conv_check_bags tol p_next.data p_prev.data then
      match squeeze_axis_minus2_bags p_next with
      | .error e => .error e
      | .ok v =>
        if omitRes then .ok (.bare v)
        else .ok (.result ⟨v, n_iter + 1, "Optimization terminated successfully."⟩)
    else
      em_loop_bags A tol omitRes max_iter fuel (n_iter + 1) p_next

/-- The EM routine on a batch `pYX : (n_bags, n_items, n_classes)`:
`pYX / p_trn` broadcast across bags, the initial `p_prev` the
1-dimensional `p_trn`. -/
def maximize_expectation_bags {B m n : ℕ} (pYX : Bags B m n) (p_trn : Vec n)
    (max_iter : ℕ) (tol : Option ℚ) (omit_result_conversion : Bool) :
    Except String (EMOutput (Fin B → Vec n)) :=
  em_loop_bags (fun b i j => pYX b i j / p_trn j) tol omit_result_conversion
    max_iter max_iter 0 (.init p_trn)

/-- Replication of a single-bag loop variable across `B` bags: the
1-dimensional initial `p_trn` is shared by broadcasting, a kept mean is
the same vector in every bag. -/
def EMState.rep {n : ℕ} (B : ℕ) : EMState n → EMStateBags B n
  | .init p => .init p
  | .kept v => .kept (fun _ => v)

/-- C2 (code bug): with `p_trn = [0.5, 0.5]`, any single-bag posterior
matrix and `max_iter = 0`, the loop body never executes and the
exhaustion return applies `jnp.squeeze(p_prev, axis=-2)` to the still
1-dimensional `p_trn`, which raises an out-of-bounds-axis error — no
`Result` with iteration count 0 is produced, contrary to the claim and
to the spec's scenario. -/
theorem em_zero_iterations_raises {m : ℕ} (pYX : Mat m 2)
    (tol : Option ℚ) :
    maximize_expectation pYX (fun _ => 1/2) 0 tol false =
      .error ("axis -2 is out of bounds for array of dimension 1") := rfl

/-- C4 (code bug): the claim covers every `max_iter ≥ 0`, but at
`max_iter = 0` the routine with `tol = None` raises the squeeze
out-of-bounds-axis error instead of returning the final estimate with
iteration count 0. -/
theorem em_tol_none_zero_iterations_raises {m n : ℕ} (pYX : Mat m n)
    (p_trn : Vec n) :
    maximize_expectation pYX p_trn 0 none false =
      .error ("axis -2 is out of bounds for array of dimension 1") := rfl

/-- C5 (code bug): at `max_iter = 0` the loop exhausts its budget with
the convergence predicate never having held, and the routine raises the
squeeze out-of-bounds-axis error rather than returning the last estimate
with `n_iter = max_iter` and the max-iterations status. -/
theorem em_exhaustion_at_zero_iterations_raises {m n : ℕ} (pYX : Mat m n)
    (p_trn : Vec n) (tol : Option ℚ) :
    maximize_expectation pYX p_trn 0 tol false =
      .error ("axis -2 is out of bounds for array of dimension 1") := rfl

/-- With and without result conversion the loop agrees: the `omit` run is
the `.bare` of the `Result` run's vector, and both runs raise the same
error when the squeeze fails. -/
lemma em_loop_omit_is_payload {m n : ℕ} (A : Mat m n) (tol : Option ℚ)
    (max_iter : ℕ) :
    ∀ (fuel k : ℕ) (s : EMState n),
      em_loop A tol true max_iter fuel k s =
        (em_loop A tol false max_iter fuel k s).map
          (fun out => EMOutput.bare out.payload) := by
  intro fuel
  induction fuel with
  | zero =>
    intro k s
    cases s <;>
      simp [em_loop, squeeze_axis_minus2, EMOutput.payload, Except.map]
  | succ fuel ih =>
    intro k s
    cases s with
    | init p =>
      rw [em_loop, em_loop]
      by_cases hc : conv_check tol (em_step A p) p
      · simp [EMState.data, hc, squeeze_axis_minus2, EMOutput.payload,
          Except.map]
      · simp only [EMState.data, hc, Bool.false_eq_true, if_false]
        exact ih (k + 1) (.kept (em_step A p))
    | kept p =>
      rw [em_loop, em_loop]
      by_cases hc : conv_check tol (em_step A p) p
      · simp [EMState.data, hc, squeeze_axis_minus2, EMOutput.payload,
          Except.map]
      · simp only [EMState.data, hc, Bool.false_eq_true, if_false]
        exact ih (k + 1) (.kept (em_step A p))

/-- C9: calling the routine with `omit_result_conversion = True` produces
exactly the prevalence vector carried by the `Result` of the same call
with `omit_result_conversion = False` (and the identical error whenever
that call raises); only the wrapper is omitted. -/
theorem em_omit_result_conversion_same_estimate {m n : ℕ} (pYX : Mat m n)
    (p_trn : Vec n) (max_iter : ℕ) (tol : Option ℚ) :
    maximize_expectation pYX p_trn max_iter tol true =
      (maximize_expectation pYX p_trn max_iter tol false).map
        (fun out => EMOutput.bare out.payload) :=
  em_loop_omit_is_payload _ tol max_iter max_iter 0 (.init p_trn)

/-- On replicated states the per-bag step is the replicated single-bag
step: the batched arithmetic has no cross-bag dependency. -/
lemma em_step_bags_const {B m n : ℕ} (A : Mat m n) (p : Vec n) :
    em_step_bags (fun (_ : Fin B) => A) (fun _ => p) =
      fun _ => em_step A p := rfl

/-- On a batch of identical states, the batched convergence test agrees
with the single-bag test as soon as there is at least one bag. -/
lemma conv_check_bags_const {B n : ℕ} (hB : 0 < B) (tol : Option ℚ)
    (q p : Vec n) :
    conv_check_bags (B := B) tol (fun _ => q) (fun _ => p) =
      conv_check tol q p := by
  cases tol with
  | none => rfl
  | some t =>
    haveI : Nonempty (Fin B) := ⟨⟨0, hB⟩⟩
    exact decide_eq_decide.mpr (forall_const (Fin B))

/-- Running the batched loop on `B ≥ 1` identical copies of one problem
is the single-bag loop with its state replicated across bags — also in
the error case, since both squeeze the same 1-dimensional `p_trn`. -/
lemma em_loop_bags_rep {B m n : ℕ} (hB : 0 < B) (A : Mat m n)
    (tol : Option ℚ) (omitRes : Bool) (max_iter : ℕ) :
    ∀ (fuel k : ℕ) (s : EMState n),
      em_loop_bags (fun (_ : Fin B) => A) tol omitRes max_iter fuel k
          (EMState.rep B s) =
        (em_loop A tol omitRes max_iter fuel k s).map
          (EMOutput.map fun v (_ : Fin B) => v) := by
  intro fuel
  induction fuel with
  | zero =>
    intro k s
    cases s <;> cases omitRes <;>
      simp [em_loop_bags, em_loop, EMState.rep, squeeze_axis_minus2,
        squeeze_axis_minus2_bags, EMOutput.map, Except.map]
  | succ fuel ih =>
    intro k s
    cases s with
    | init p =>
      rw [em_loop_bags, em_loop]
      simp only [EMState.rep, EMStateBags.data, EMState.data]
      rw [em_step_bags_const, conv_check_bags_const hB]
      by_cases hc : conv_check tol (em_step A p) p
      · cases omitRes <;>
          simp [hc, squeeze_axis_minus2, squeeze_axis_minus2_bags,
            EMOutput.map, Except.map]
      · simp only [hc, Bool.false_eq_true, if_false]
        exact ih (k + 1) (.kept (em_step A p))
    | kept p =>
      rw [em_loop_bags, em_loop]
      simp only [EMState.rep, EMStateBags.data, EMState.data]
      rw [em_step_bags_const, conv_check_bags_const hB]
      by_cases hc : conv_check tol (em_step A p) p
      · cases omitRes <;>
          simp [hc, squeeze_axis_minus2, squeeze_axis_minus2_bags,
            EMOutput.map, Except.map]
      · simp only [hc, Bool.false_eq_true, if_false]
        exact ih (k + 1) (.kept (em_step A p))

/-- C6: running the routine on `B ≥ 1` identical copies of one single-bag
problem (same posteriors, `p_trn`, `max_iter` and `tol`) yields `B`
identical per-bag estimates, each equal to the single-bag run's estimate
(with the same iteration count and status, and the identical error in
the raising case). -/
theorem em_batch_independence {B m n : ℕ} (hB : 0 < B) (pYX : Mat m n)
    (p_trn : Vec n) (max_iter : ℕ) (tol : Option ℚ) (omitRes : Bool) :
    maximize_expectation_bags (fun (_ : Fin B) => pYX) p_trn max_iter tol omitRes =
      (maximize_expectation pYX p_trn max_iter tol omitRes).map
        (EMOutput.map fun v (_ : Fin B) => v) :=
  em_loop_bags_rep hB (fun i j => pYX i j / p_trn j) tol omitRes
    max_iter max_iter 0 (.init p_trn)

/-- Closed instance of batch independence: two copies of a one-item,
two-class problem with the default-style tolerance. -/
theorem em_batch_independence_witness :
    0 < 2 ∧
    maximize_expectation_bags
        (fun (_ : Fin 2) (_ : Fin 1) (j : Fin 2) => if j = 0 then (3/4 : ℚ) else 1/4)
        (fun j => if j = 0 then 1/2 else 1/2) 3 (some (1/1000000)) false =
      (maximize_expectation
          (fun (_ : Fin 1) (j : Fin 2) => if j = 0 then (3/4 : ℚ) else 1/4)
          (fun j => if j = 0 then 1/2 else 1/2) 3 (some (1/1000000)) false).map
        (EMOutput.map fun v (_ : Fin 2) => v) :=
  ⟨by decide, em_batch_independence (by decide) _ _ 3 (some (1/1000000)) false⟩

/-- A row that is non-negative and sums to 1 has a positive entry. -/
lemma row_has_positive {m n : ℕ} (pYX : Mat m n)
    (hsum : ∀ i, ∑ j, pYX i j = 1) (i : Fin m) :
    ∃ j, 0 < pYX i j := by
  by_contra h
  push_neg at h
  have hle : (∑ j, pYX i j) ≤ 0 := Finset.sum_nonpos fun j _ => h j
  rw [hsum i] at hle
  norm_num at hle

/-- One EM step keeps the state on the simplex and keeps every class that
appears in some posterior row strictly positive: with `m ≥ 1` items, rows
non-negative summing to 1, and strictly positive training priors, the row
sums after reweighting stay positive, so the renormalized rows are
probability rows and their mean is again a probability vector. -/
lemma em_step_preserves_simplex {m n : ℕ} (pYX : Mat m n) (p_trn : Vec n)
    (hm : 0 < m)
    (hnn : ∀ i j, 0 ≤ pYX i j) (hsum : ∀ i, ∑ j, pYX i j = 1)
    (htrn : ∀ j, 0 < p_trn j)
    (p : Vec n) (hp_nn : ∀ j, 0 ≤ p j)
    (hp_supp : ∀ j, (∃ i, 0 < pYX i j) → 0 < p j) :
    (∀ j, 0 ≤ em_step (fun i j => pYX i j / p_trn j) p j) ∧
    (∑ j, em_step (fun i j => pYX i j / p_trn j) p j) = 1 ∧
    (∀ j, (∃ i, 0 < pYX i j) → 0 < em_step (fun i j => pYX i j / p_trn j) p j) := by
  set A : Mat m n := fun i j => pYX i j / p_trn j with hA
  have hA_nn : ∀ i j, 0 ≤ A i j * p j := fun i j =>
    mul_nonneg (div_nonneg (hnn i j) (htrn j).le) (hp_nn j)
  have hS_pos : ∀ i, 0 < ∑ k, A i k * p k := by
    intro i
    obtain ⟨j0, hj0⟩ := row_has_positive pYX hsum i
    refine Finset.sum_pos' (fun k _ => hA_nn i k) ⟨j0, Finset.mem_univ j0, ?_⟩
    exact mul_pos (div_pos hj0 (htrn j0)) (hp_supp j0 ⟨i, hj0⟩)
  have hrow1 : ∀ i : Fin m, ∑ j, A i j * p j / (∑ k, A i k * p k) = 1 := by
    intro i
    rw [← Finset.sum_div]
    exact div_self (hS_pos i).ne'
  have hm' : (0 : ℚ) < (m : ℚ) := by exact_mod_cast hm
  refine ⟨fun j => ?_, ?_, fun j hj => ?_⟩
  · exact div_nonneg
      (Finset.sum_nonneg fun i _ => div_nonneg (hA_nn i j) (hS_pos i).le) hm'.le
  · show (∑ j, (∑ i, A i j * p j / (∑ k, A i k * p k)) / (m : ℚ)) = 1
    rw [← Finset.sum_div, Finset.sum_comm]
    rw [Finset.sum_congr rfl fun i _ => hrow1 i]
    simp [div_self hm'.ne']
  · obtain ⟨i0, hi0⟩ := hj
    refine div_pos (Finset.sum_pos'
      (fun i _ => div_nonneg (hA_nn i j) (hS_pos i).le)
      ⟨i0, Finset.mem_univ i0, ?_⟩) hm'
    exact div_pos (mul_pos (div_pos hi0 (htrn j)) (hp_supp j ⟨i0, hi0⟩)) (hS_pos i0)

/-- Started from a `keepdims` state on the simplex, the loop always
returns normally (every reachable squeeze sees the kept axis) and its
estimate is again on the simplex. -/
lemma em_loop_kept_simplex {m n : ℕ} (pYX : Mat m n) (p_trn : Vec n)
    (hm : 0 < m)
    (hnn : ∀ i j, 0 ≤ pYX i j) (hsum : ∀ i, ∑ j, pYX i j = 1)
    (htrn : ∀ j, 0 < p_trn j) (tol : Option ℚ) (omitRes : Bool)
    (max_iter : ℕ) :
    ∀ (fuel k : ℕ) (p : Vec n), (∀ j, 0 ≤ p j) → (∑ j, p j) = 1 →
      (∀ j, (∃ i, 0 < pYX i j) → 0 < p j) →
      ∃ out : EMOutput (Vec n),
        em_loop (fun i j => pYX i j / p_trn j) tol omitRes max_iter fuel k
          (.kept p) = .ok out ∧
        (∀ j, 0 ≤ out.payload j) ∧ (∑ j, out.payload j) = 1 := by
  intro fuel
  induction fuel with
  | zero =>
    intro k p hp_nn hp_sum _
    cases omitRes with
    | true => exact ⟨.bare p, rfl, hp_nn, hp_sum⟩
    | false =>
      exact ⟨.result ⟨p, max_iter, "Maximum number of iterations reached."⟩,
        rfl, hp_nn, hp_sum⟩
  | succ fuel ih =>
    intro k p hp_nn hp_sum hp_supp
    obtain ⟨hnext_nn, hnext_sum, hnext_supp⟩ :=
      em_step_preserves_simplex pYX p_trn hm hnn hsum htrn p hp_nn hp_supp
    rw [em_loop]
    simp only [EMState.data]
    by_cases hc : conv_check tol
        (em_step (fun i j => pYX i j / p_trn j) p) p
    · cases omitRes with
      | true =>
        exact ⟨.bare (em_step (fun i j => pYX i j / p_trn j) p),
          by simp [hc, squeeze_axis_minus2], hnext_nn, hnext_sum⟩
      | false =>
        exact ⟨.result ⟨em_step (fun i j => pYX i j / p_trn j) p, k + 1,
          "Optimization terminated successfully."⟩,
          by simp [hc, squeeze_axis_minus2], hnext_nn, hnext_sum⟩
    · simp only [hc, Bool.false_eq_true, if_false]
      exact ih (k + 1) (em_step (fun i j => pYX i j / p_trn j) p)
        hnext_nn hnext_sum hnext_supp

/-- C1: for a non-empty bag whose posterior rows are non-negative and sum
to 1 and a strictly positive training prevalence summing to 1, the
routine with any `max_iter ≥ 1`, any `tol` and either output mode returns
normally, and the returned prevalence estimate has non-negative entries
summing to 1. -/
theorem em_simplex_invariant {m n : ℕ} (pYX : Mat m n) (p_trn : Vec n)
    (max_iter : ℕ) (tol : Option ℚ) (omitRes : Bool)
    (hm : 0 < m)
    (hnn : ∀ i j, 0 ≤ pYX i j) (hsum : ∀ i, ∑ j, pYX i j = 1)
    (htrn : ∀ j, 0 < p_trn j) (htrn_sum : (∑ j, p_trn j) = 1)
    (hmi : 1 ≤ max_iter) :
    ∃ out : EMOutput (Vec n),
      maximize_expectation pYX p_trn max_iter tol omitRes = .ok out ∧
      (∀ j, 0 ≤ out.payload j) ∧ (∑ j, out.payload j) = 1 := by
  obtain ⟨fuel, rfl⟩ : ∃ fuel, max_iter = fuel + 1 :=
    ⟨max_iter - 1, by omega⟩
  obtain ⟨hnext_nn, hnext_sum, hnext_supp⟩ :=
    em_step_preserves_simplex pYX p_trn hm hnn hsum htrn p_trn
      (fun j => (htrn j).le) (fun j _ => htrn j)
  simp only [maximize_expectation]
  rw [em_loop]
  simp only [EMState.data]
  by_cases hc : conv_check tol
      (em_step (fun i j => pYX i j / p_trn j) p_trn) p_trn
  · cases omitRes with
    | true =>
      exact ⟨.bare (em_step (fun i j => pYX i j / p_trn j) p_trn),
        by simp [hc, squeeze_axis_minus2], hnext_nn, hnext_sum⟩
    | false =>
      exact ⟨.result ⟨em_step (fun i j => pYX i j / p_trn j) p_trn, 1,
        "Optimization terminated successfully."⟩,
        by simp [hc, squeeze_axis_minus2], hnext_nn, hnext_sum⟩
  · simp only [hc, Bool.false_eq_true, if_false]
    exact em_loop_kept_simplex pYX p_trn hm hnn hsum htrn tol omitRes
      (fuel + 1) fuel 1 (em_step (fun i j => pYX i j / p_trn j) p_trn)
      hnext_nn hnext_sum hnext_supp

/-- Closed instance of the simplex invariant: one item, two classes,
uniform training prevalence, one iteration. -/
theorem em_simplex_invariant_witness :
    ((0 : ℕ) < 1 ∧ (1 : ℕ) ≤ 1) ∧
    ∃ out : EMOutput (Vec 2),
      maximize_expectation
        (fun (_ : Fin 1) (j : Fin 2) => if j = 0 then (3/4 : ℚ) else 1/4)
        (fun _ => 1/2) 1 (some (1/1000000)) false = .ok out ∧
      (∀ j, 0 ≤ out.payload j) ∧ (∑ j, out.payload j) = 1 :=
  ⟨⟨by decide, by decide⟩,
    em_simplex_invariant _ _ 1 (some (1/1000000)) false (by decide)
      (by intro i j; fin_cases j <;> norm_num)
      (by intro i; norm_num [Fin.sum_univ_two])
      (by intro j; norm_num)
      (by norm_num [Fin.sum_univ_two])
      (by decide)⟩

/-- When every posterior row equals the strictly positive prior `p_trn`
(summing to 1) and the bag is non-empty, one EM step returns `p_trn`
itself: the reweighting ratios are all 1 and the mean of `m` copies of
`p_trn` is `p_trn`. -/
lemma em_step_fixed_at_p_trn {m n : ℕ} (pYX : Mat m n) (p_trn : Vec n)
    (hm : 0 < m) (hrows : ∀ i j, pYX i j = p_trn j)
    (htrn : ∀ j, 0 < p_trn j) (htrn_sum : (∑ j, p_trn j) = 1) :
    em_step (fun i j => pYX i j / p_trn j) p_trn = p_trn := by
  have hm' : ((m : ℚ)) ≠ 0 := by
    exact_mod_cast hm.ne'
  funext j
  show (∑ i : Fin m, pYX i j / p_trn j * p_trn j /
      (∑ k, pYX i k / p_trn k * p_trn k)) / (m : ℚ) = p_trn j
  have hterm : ∀ i : Fin m, ∀ k, pYX i k / p_trn k * p_trn k = p_trn k := by
    intro i k
    rw [hrows i k]
    exact div_mul_cancel₀ (p_trn k) (htrn k).ne'
  have hinner : ∀ i : Fin m, (∑ k, pYX i k / p_trn k * p_trn k) = 1 := by
    intro i
    rw [Finset.sum_congr rfl fun k _ => hterm i k]
    exact htrn_sum
  calc (∑ i : Fin m, pYX i j / p_trn j * p_trn j /
          (∑ k, pYX i k / p_trn k * p_trn k)) / (m : ℚ)
      = (∑ i : Fin m, p_trn j) / (m : ℚ) := by
        rw [Finset.sum_congr rfl fun i _ => by rw [hterm i j, hinner i, div_one]]
    _ = p_trn j := by
        rw [Finset.sum_const, Finset.card_univ, Fintype.card_fin,
          nsmul_eq_mul, mul_comm, mul_div_assoc, div_self hm', mul_one]

/-- C3: if every posterior row equals the strictly positive training
prevalence `p_trn` (summing to 1) and the bag is non-empty, then for any
`tol > 0` and `max_iter ≥ 1` the routine stops after exactly 1 iteration
with estimate `p_trn` and the success status. -/
theorem em_converges_in_one_iteration_at_fixed_point {m n : ℕ}
    (pYX : Mat m n) (p_trn : Vec n) (max_iter : ℕ) (t : ℚ)
    (hm : 0 < m) (hrows : ∀ i j, pYX i j = p_trn j)
    (htrn : ∀ j, 0 < p_trn j) (htrn_sum : (∑ j, p_trn j) = 1)
    (ht : 0 < t) (hmi : 1 ≤ max_iter) :
    maximize_expectation pYX p_trn max_iter (some t) false =
      .ok (.result ⟨p_trn, 1, "Optimization terminated successfully."⟩) := by
  obtain ⟨fuel, rfl⟩ : ∃ fuel, max_iter = fuel + 1 :=
    ⟨max_iter - 1, by omega⟩
  have hstep := em_step_fixed_at_p_trn pYX p_trn hm hrows htrn htrn_sum
  have hconv : conv_check (some t) p_trn p_trn = true := by
    simp only [conv_check, l2_lt, sub_self, decide_eq_true_eq]
    refine ⟨ht, ?_⟩
    simpa using pow_pos ht 2
  simp only [maximize_expectation]
  rw [em_loop]
  simp [EMState.data, hstep, hconv, squeeze_axis_minus2]

/-- Closed instance of the fixed-point convergence: the spec scenario with
3 classes, `p_trn = [0.5, 0.3, 0.2]`, 4 items all posterior
`[0.5, 0.3, 0.2]`, `tol = 1e-6` and `max_iter = 100`. -/
theorem em_converges_in_one_iteration_witness :
    maximize_expectation (fun (_ : Fin 4) => (![1/2, 3/10, 1/5] : Vec 3))
        ![1/2, 3/10, 1/5] 100 (some (1/1000000)) false =
      .ok (.result ⟨![1/2, 3/10, 1/5], 1, "Optimization terminated successfully."⟩) :=
  em_converges_in_one_iteration_at_fixed_point _ _ 100 (1/1000000)
    (by decide) (fun i j => rfl)
    (by intro j; fin_cases j <;> norm_num)
    (by norm_num [Fin.sum_univ_three])
    (by norm_num) (by decide)

/-- The likelihood-ratio matrix of `LikelihoodMaximizer.predict`
(lines 38-39): posteriors divided elementwise by `p_trn`, then every row
renormalized to sum to 1. -/
def lm_pXY {m n : ℕ} (posteriors : Mat m n) (p_trn : Vec n) : Mat m n :=
  fun i j => posteriors i j / p_trn j / (∑ k, posteriors i k / p_trn k)

/-- Embedding of `xi_0`, line 41: half the sum of squared first differences
`p[1:] - p[:-1]`, indexed by the positions where both entries exist. -/
def xi_0 {n : ℕ} (p : Vec n) : ℚ :=
  (∑ j : Fin n, if h : j.val + 1 < n then (p ⟨j.val + 1, h⟩ - p j) ^ 2 else 0) / 2

/-- Embedding of `xi_1`, line 42: half the sum of squared second differences
`-p[:-2] + 2*p[1:-1] - p[2:]`; for `n < 3` every slice is empty and the
sum has no terms. -/
def xi_1 {n : ℕ} (p : Vec n) : ℚ :=
  (∑ j : Fin n, if h : j.val + 2 < n then
    (-p j + 2 * p ⟨j.val + 1, by omega⟩ - p ⟨j.val + 2, h⟩) ^ 2 else 0) / 2

/-- The regularized negative log-likelihood loss of lines 40-43, with the
elementwise `jnp.log` left as an uninterpreted function parameter. -/
def lm_loss {m n : ℕ} (posteriors : Mat m n) (p_trn : Vec n)
    (tau_0 tau_1 : ℚ) (log : ℚ → ℚ) (p : Vec n) : ℚ :=
  -((∑ i, log (∑ j, lm_pXY posteriors p_trn i j * p j)) / (m : ℚ))
    + tau_0 * xi_0 p + tau_1 * xi_1 p

/-- The unregularized base term in the spec's words: the negative mean
over items of `log (pXY @ p)` for the row-renormalized matrix `pXY`. -/
def nll_base {m n : ℕ} (pXY : Mat m n) (log : ℚ → ℚ) (p : Vec n) : ℚ :=
  -((∑ i, log (∑ j, pXY i j * p j)) / (m : ℚ))

/-- C7: with `tau_0 = 0` and `tau_1 = 0` the Likelihood Maximizer's loss
is, at every candidate prevalence vector `p`, exactly the unregularized
negative mean log-likelihood of `pXY @ p`. -/
theorem lm_loss_reduces_to_base_term_without_regularization {m n : ℕ}
    (posteriors : Mat m n) (p_trn : Vec n) (log : ℚ → ℚ) (p : Vec n) :
    lm_loss posteriors p_trn 0 0 log p =
      nll_base (lm_pXY posteriors p_trn) log p := by
  simp [lm_loss, nll_base]

/-- C8: with fewer than 3 classes the second-difference regularizer `xi_1`
is zero, so the `tau_1 * xi_1` contribution vanishes for every `tau_1`. -/
theorem xi_1_zero_below_three_classes {n : ℕ} (hn : n < 3) (p : Vec n)
    (tau_1 : ℚ) : xi_1 p = 0 ∧ tau_1 * xi_1 p = 0 := by
  have h0 : xi_1 p = 0 := by
    unfold xi_1
    rw [Finset.sum_eq_zero, zero_div]
    intro j _
    have hj := j.isLt
    exact dif_neg (by omega)
  exact ⟨h0, by rw [h0, mul_zero]⟩

/-- Closed instance of the vanishing ordinal regularizer: 2 classes,
`p = [1/3, 2/3]`, `tau_1 = 5`. -/
theorem xi_1_zero_below_three_classes_witness :
    2 < 3 ∧ (xi_1 (![1/3, 2/3] : Vec 2) = 0 ∧
      (5 : ℚ) * xi_1 (![1/3, 2/3] : Vec 2) = 0) :=
  ⟨by decide, xi_1_zero_below_three_classes (by decide) ![1/3, 2/3] 5⟩

/-- Fitted state of an estimator: the recorded training prevalence
(absent until `fit` succeeds) and whether the wrapped classifier's own
`fit` has been called. -/
structure EstimatorState where
  p_trn : Option (List ℚ)
  classifier_fitted : Bool
deriving DecidableEq

/-- Modelled from the spec: `check_y` is a label helper imported from the
package's method module, not under `src/`; per §6 it is a consumed
service that raises a validation error when labels are inconsistent with
`n_classes`. A call is modelled as an `Except` value: `.error` exactly
when the Python helper raises. -/
abbrev CheckY := List ℕ → Option ℕ → Except String Unit

/-- Modelled from the spec: `class_prevalences` is the other consumed
label helper, not under `src/`; it turns a label array into the empirical
prevalence vector over `n_classes` classes. -/
abbrev ClassPrevalences := List ℕ → Option ℕ → List ℚ

/-- Embedding of `LikelihoodMaximizer.fit` (lines 31-36): validate the labels first;
only then record `p_trn` and, if `fit_classifier`, fit the classifier.
The pair returned is the state after the call together with the raised
validation error, if any. -/
def LikelihoodMaximizer.fit (check_y : CheckY)
    (class_prevalences : ClassPrevalences) (fit_classifier : Bool)
    (s : EstimatorState) (y : List ℕ) (n_classes : Option ℕ) :
    EstimatorState × Option String :=
  match check_y y n_classes with
  | .error e => (s, some e)
  | .ok _ =>
    let s1 := { s with p_trn := some (class_prevalences y n_classes) }
    (if fit_classifier then { s1 with classifier_fitted := true } else s1, none)

/-- Embedding of `ExpectationMaximizer.fit` (lines 68-73): the identical contract and
statement order as `LikelihoodMaximizer.fit`. -/
def ExpectationMaximizer.fit (check_y : CheckY)
    (class_prevalences : ClassPrevalences) (fit_classifier : Bool)
    (s : EstimatorState) (y : List ℕ) (n_classes : Option ℕ) :
    EstimatorState × Option String :=
  match check_y y n_classes with
  | .error e => (s, some e)
  | .ok _ =>
    let s1 := { s with p_trn := some (class_prevalences y n_classes) }
    (if fit_classifier then { s1 with classifier_fitted := true } else s1, none)

/-- C10: for both estimators, when label validation raises, `fit` leaves
the state exactly as it was: `p_trn` is not recorded and the classifier
is not fitted, because validation is the first statement of `fit`. -/
theorem fit_validation_error_leaves_state_unchanged (check_y : CheckY)
    (class_prevalences : ClassPrevalences) (fit_classifier : Bool)
    (s : EstimatorState) (y : List ℕ) (n_classes : Option ℕ) (e : String)
    (h : check_y y n_classes = .error e) :
    LikelihoodMaximizer.fit check_y class_prevalences fit_classifier
        s y n_classes = (s, some e) ∧
    ExpectationMaximizer.fit check_y class_prevalences fit_classifier
        s y n_classes = (s, some e) := by
  constructor <;>
    simp [LikelihoodMaximizer.fit, ExpectationMaximizer.fit, h]

/-- Closed instance of the validation-error case: an always-raising
validator, an unfitted initial state, labels `[0]`. -/
theorem fit_validation_error_witness :
    ((fun (_ : List ℕ) (_ : Option ℕ) =>
      (Except.error ("bad labels") : Except String Unit)) [0] (some 2) =
        Except.error ("bad labels")) ∧
    (LikelihoodMaximizer.fit
        (fun _ _ => Except.error ("bad labels")) (fun _ _ => []) true
        ⟨none, false⟩ [0] (some 2) = (⟨none, false⟩, some ("bad labels")) ∧
      ExpectationMaximizer.fit
        (fun _ _ => Except.error ("bad labels")) (fun _ _ => []) true
        ⟨none, false⟩ [0] (some 2) = (⟨none, false⟩, some ("bad labels"))) :=
  ⟨rfl, fit_validation_error_leaves_state_unchanged _ _ true
    ⟨none, false⟩ [0] (some 2) ("bad labels") rfl⟩
